import Mathlib

/-!
Shallow embedding of the activity-aggregation and heuristic-classification
pipeline of `mcp-github-actions` (files `src/mcp_github_actions/github_client.py`
and `src/mcp_github_actions/server.py`), together with theorems settling the
frozen claims about it.

Conventions of the embedding:
* Python dicts become association lists in insertion order
  (`List (String × _)`); `d[k] = d.get(k, 0) + 1` becomes `bump`.
* JSON-like payload values become the inductive `JVal`.
* Timestamps become integers (`ℤ`); `datetime` comparison is a total order.
* A fallible upstream fetch becomes `Except String _`; the `except:` clauses
  that skip one repository become the `.error` branch.
* Python's stable `sorted(..., key=k, reverse=True)` becomes the stable
  insertion sort `sortDescBy k` (a stable descending sort is unique, so any
  stable implementation is an equivalent model).
* Python's `round(x, 1)` becomes `pyRound1` on `ℚ`; the IEEE-754 tie-breaking
  of float `round` is abstracted into the integer rounding of `Rat`, which is
  used consistently on both the code side and the specification side.
-/

/-- JSON-like values: the payload fields of GitHub events. -/
inductive JVal where
  | s : String → JVal
  | n : Nat → JVal
  | q : ℚ → JVal
  | obj : List (String × JVal) → JVal
  | arr : List JVal → JVal

/-- A JSON object: a Python dict in insertion order. -/
abbrev JObj := List (String × JVal)

/-- Dict lookup (`d[k]` / `d.get(k)`), first binding wins. -/
def jGet : JObj → String → Option JVal
  | [], _ => none
  | (k', v) :: rest, k => if k' = k then some v else jGet rest k

/-- Dict lookup with default (`d.get(k, default)`). -/
def jGetD (o : JObj) (k : String) (d : JVal) : JVal :=
  (jGet o k).getD d

/-- `d.get(k, {})` coerced to a dict, as the code does for nested payloads. -/
def jGetObj (o : JObj) (k : String) : JObj :=
  match jGetD o k (.obj []) with
  | .obj l => l
  | _ => []

/-- Python `len(...)` on the sized values the code applies it to. -/
def jLen : JVal → Nat
  | .arr l => l.length
  | .obj o => o.length
  | .s v => v.length
  | _ => 0

/-- `d[k] = d.get(k, 0) + 1` on a counter dict: update in place, new keys
appended at the end (Python dict insertion order). -/
def bump : List (String × Nat) → String → List (String × Nat)
  | [], k => [(k, 1)]
  | (k', v) :: rest, k =>
      if k' = k then (k', v + 1) :: rest else (k', v) :: bump rest k

/-- Counter lookup with default 0 (`d.get(k, 0)`). -/
def cntGet : List (String × Nat) → String → Nat
  | [], _ => 0
  | (k', v) :: rest, k => if k' = k then v else cntGet rest k

/-- Python's substring test `needle in hay` on strings. -/
def containsSub (hay needle : String) : Bool :=
  hay.data.tails.any (fun t => needle.data.isPrefixOf t)

/-- Python's `str.lower()` (the code only lower-cases ASCII keyword text). -/
def strToLower (s : String) : String :=
  ⟨s.data.map Char.toLower⟩

/-- Python `round(x, 1)`: round to one decimal place.  Tie-breaking of the
binary float `round` is abstracted to `Rat` rounding; both the embedded code
and the claim statements use this same function. -/
def pyRound1 (x : ℚ) : ℚ :=
  (round (10 * x) : ℤ) / 10

section StableSort

variable {α : Type} {β : Type} [LinearOrder β]

/-- One step of the stable descending insertion sort: place `x` before the
first element whose key is `≤ key x`, so earlier elements win ties. -/
def insertDescBy (key : α → β) (x : α) : List α → List α
  | [] => [x]
  | y :: ys => if key y ≤ key x then x :: y :: ys else y :: insertDescBy key x ys

/-- Stable descending sort by `key`: the model of Python's
`sorted(l, key=key, reverse=True)` (which is stable). -/
def sortDescBy (key : α → β) : List α → List α
  | [] => []
  | x :: xs => insertDescBy key x (sortDescBy key xs)

end StableSort

/-! ## Event model and payload projections
(`GitHubClient._extract_event_payload`, `GitHubActionsServer._format_event_payload`) -/

/-- A GitHub event as the code reads it: type tag, actor login, repository
name (both possibly absent), creation timestamp, raw payload dict. -/
structure EventM where
  type : String
  actorLogin : Option String
  repoName : Option String
  created_at : ℤ
  payload : JObj

/-- The eight event types for which `_extract_event_payload` projects a fixed
field subset. -/
def recognizedEventTypes : List String :=
  ["PushEvent", "IssuesEvent", "PullRequestEvent", "CreateEvent",
   "DeleteEvent", "WatchEvent", "ForkEvent", "ReleaseEvent"]

/-- `GitHubClient._extract_event_payload`: per-event-type projection of the
raw payload; any other type returns `event.payload if event.payload else {}`.
The dead `except:` branch (all dict accesses here are total `.get` calls on
the modelled dict payloads) is not represented. -/
def extractEventPayload (e : EventM) : JObj :=
  if e.type = "PushEvent" then
    [("commits", .n (jLen (jGetD e.payload "commits" (.arr [])))),
     ("ref", jGetD e.payload "ref" (.s "")),
     ("head", jGetD e.payload "head" (.s "")),
     ("size", jGetD e.payload "size" (.n 0))]
  else if e.type = "IssuesEvent" then
    let issue := jGetObj e.payload "issue"
    [("action", jGetD e.payload "action" (.s "")),
     ("issue", .obj
       [("number", jGetD issue "number" (.n 0)),
        ("title", jGetD issue "title" (.s "")),
        ("state", jGetD issue "state" (.s "")),
        ("url", jGetD issue "html_url" (.s ""))])]
  else if e.type = "PullRequestEvent" then
    let pr := jGetObj e.payload "pull_request"
    [("action", jGetD e.payload "action" (.s "")),
     ("pull_request", .obj
       [("number", jGetD pr "number" (.n 0)),
        ("title", jGetD pr "title" (.s "")),
        ("state", jGetD pr "state" (.s "")),
        ("url", jGetD pr "html_url" (.s ""))])]
  else if e.type = "CreateEvent" then
    [("ref_type", jGetD e.payload "ref_type" (.s "")),
     ("ref", jGetD e.payload "ref" (.s "")),
     ("description", jGetD e.payload "description" (.s ""))]
  else if e.type = "DeleteEvent" then
    [("ref_type", jGetD e.payload "ref_type" (.s "")),
     ("ref", jGetD e.payload "ref" (.s ""))]
  else if e.type = "WatchEvent" then
    [("action", jGetD e.payload "action" (.s "started"))]
  else if e.type = "ForkEvent" then
    let forkee := jGetObj e.payload "forkee"
    [("forkee", .obj
       [("full_name", jGetD forkee "full_name" (.s "")),
        ("url", jGetD forkee "html_url" (.s ""))])]
  else if e.type = "ReleaseEvent" then
    let release := jGetObj e.payload "release"
    [("action", jGetD e.payload "action" (.s "")),
     ("release", .obj
       [("tag_name", jGetD release "tag_name" (.s "")),
        ("name", jGetD release "name" (.s "")),
        ("url", jGetD release "html_url" (.s ""))])]
  else
    -- `event.payload if event.payload else {}`
    if e.payload.isEmpty then [] else e.payload

/-- `GitHubActionsServer._format_event_payload`: the server-side projection.
It starts from `payload = {}`, fills it only for seven event types (it has no
`ReleaseEvent` branch), and returns the initial `{}` for every other type. -/
def formatEventPayload (e : EventM) : JObj :=
  if e.type = "PushEvent" then
    [("commits", .n (jLen (jGetD e.payload "commits" (.arr [])))),
     ("ref", jGetD e.payload "ref" (.s "Unknown")),
     ("head", jGetD e.payload "head" (.s "Unknown"))]
  else if e.type = "IssuesEvent" then
    [("action", jGetD e.payload "action" (.s "Unknown")),
     ("issue_number", jGetD (jGetObj e.payload "issue") "number" (.s "Unknown")),
     ("issue_title", jGetD (jGetObj e.payload "issue") "title" (.s "Unknown"))]
  else if e.type = "PullRequestEvent" then
    [("action", jGetD e.payload "action" (.s "Unknown")),
     ("pr_number", jGetD (jGetObj e.payload "pull_request") "number" (.s "Unknown")),
     ("pr_title", jGetD (jGetObj e.payload "pull_request") "title" (.s "Unknown"))]
  else if e.type = "CreateEvent" then
    [("ref_type", jGetD e.payload "ref_type" (.s "Unknown")),
     ("ref", jGetD e.payload "ref" (.s "Unknown"))]
  else if e.type = "DeleteEvent" then
    [("ref_type", jGetD e.payload "ref_type" (.s "Unknown")),
     ("ref", jGetD e.payload "ref" (.s "Unknown"))]
  else if e.type = "WatchEvent" then
    [("action", jGetD e.payload "action" (.s "Unknown"))]
  else if e.type = "ForkEvent" then
    [("forkee", jGetD (jGetObj e.payload "forkee") "full_name" (.s "Unknown"))]
  else
    []

/-- A concrete unrecognized event with a non-empty payload. -/
def gollumEvent : EventM :=
  { type := "GollumEvent"
    actorLogin := some "alice"
    repoName := some "alice/wiki"
    created_at := 100
    payload := [("pages", .arr [.obj [("page_name", .s "Home")]])] }

/-! ## Activity aggregation (`GitHubClient.get_user_activity`) -/

/-- One commit as read through PyGithub: the code uses `commit.sha`,
`commit.commit.message`, `commit.commit.author.date` and `commit.html_url`. -/
structure CommitRec where
  sha : String
  message : String
  date : ℤ
  url : String
deriving DecidableEq

/-- One owned repository as the aggregation walks it: full name, its own
`updated_at` timestamp, whether the commit fetch succeeds (the
`except:`-caught failure is `fetchOk = false`), and the commits authored by
the queried user that the upstream holds. -/
structure RepoM where
  full_name : String
  updated_at : ℤ
  fetchOk : Bool
  commitsAll : List CommitRec
deriving DecidableEq

/-- `repo.get_commits(author=username, since=since)`: the upstream applies the
`since` filter itself and returns only commits dated at or after it; a
failing fetch raises, modelled as `.error`. -/
def repoGetCommits (r : RepoM) (since : ℤ) : Except String (List CommitRec) :=
  if r.fetchOk then .ok (r.commitsAll.filter (fun c => decide (since ≤ c.date)))
  else .error "commit fetch failed"

/-- One entry of `activity["commits"]`. -/
structure ActCommitRec where
  sha : String
  message : String
  repository : String
  date : ℤ
  url : String
deriving DecidableEq

/-- The commit half of `get_user_activity`: walk the owned repositories in
order; a repository whose own `updated_at` is before the cutoff is skipped
(`continue`), a repository whose fetch fails is skipped with a warning, and
the fetched commits are appended in order. -/
def activityCommits (since : ℤ) : List RepoM → List ActCommitRec
  | [] => []
  | r :: rs =>
      if r.updated_at < since then activityCommits since rs
      else
        match repoGetCommits r since with
        | .ok cs =>
            cs.map (fun c => ⟨c.sha, c.message, r.full_name, c.date, c.url⟩)
              ++ activityCommits since rs
        | .error _ => activityCommits since rs

/-- The `activity["summary"]` accumulator: total event count, set of active
repository names (a Python `set`, so modelled as a `Finset`), and the
per-type tallies. -/
structure ActSummary where
  total_events : ℕ
  repositories_active : Finset String
  event_types : List (String × ℕ)
deriving DecidableEq

/-- One normalized entry of `activity["events"]`. -/
structure EvOut where
  type : String
  repo : Option String
  created_at : ℤ
  payload : JObj

/-- The record appended to `activity["events"]` for one kept event. -/
def evOutOf (e : EventM) : EvOut :=
  ⟨e.type, e.repoName, e.created_at, extractEventPayload e⟩

/-- One iteration of the event loop of `get_user_activity`: skip events
created before the cutoff (`continue`), otherwise count, record the active
repository, bump the per-type tally and append the normalized record. -/
def stepEvent (since : ℤ) (st : ActSummary × List EvOut) (e : EventM) :
    ActSummary × List EvOut :=
  if e.created_at < since then st
  else
    ({ total_events := st.1.total_events + 1
       repositories_active :=
         match e.repoName with
         | some nm => insert nm st.1.repositories_active
         | none => st.1.repositories_active
       event_types := bump st.1.event_types e.type },
     st.2 ++ [evOutOf e])

/-- The event half of `get_user_activity`: fold the event stream in order
through `stepEvent`, starting from the empty summary. -/
def aggregateEvents (since : ℤ) (evts : List EventM) : ActSummary × List EvOut :=
  evts.foldl (stepEvent since) (⟨0, ∅, []⟩, [])

/-- The full `get_user_activity` result (the issue/PR search, a third
independent axis, is outside the claims and not modelled). -/
structure ActivityResult where
  summary : ActSummary
  events : List EvOut
  commits : List ActCommitRec

/-- `GitHubClient.get_user_activity` over the modelled inputs: the user's
event stream and owned-repository list. -/
def getUserActivity (since : ℤ) (evts : List EventM) (repos : List RepoM) :
    ActivityResult :=
  ⟨(aggregateEvents since evts).1, (aggregateEvents since evts).2,
   activityCommits since repos⟩

/-! ## Limit-bounded fetches
(`get_user_events`, `get_repository_events`, `get_user_commits`) -/

/-- `for i, x in enumerate(stream): if i >= limit: break; out.append(x)`. -/
def takeLimit {α : Type} (limit : ℕ) : List α → ℕ → List α
  | [], _ => []
  | x :: xs, i => if limit ≤ i then [] else x :: takeLimit limit xs (i + 1)

/-- `GitHubClient.get_user_events`: consume the paginated stream and stop
after `limit` items. -/
def getUserEvents (evts : List EventM) (limit : ℕ) : List EventM :=
  takeLimit limit evts 0

/-- `GitHubClient.get_repository_events`: same bounded consumption over the
repository's stream. -/
def getRepositoryEvents (evts : List EventM) (limit : ℕ) : List EventM :=
  takeLimit limit evts 0

/-- The inner loop of `get_user_commits`: append one repository's commits,
breaking as soon as the accumulated list reaches `limit`. -/
def addUpTo (limit : ℕ) (acc : List CommitRec) : List CommitRec → List CommitRec
  | [] => acc
  | c :: cs =>
      if limit ≤ (acc ++ [c]).length then acc ++ [c]
      else addUpTo limit (acc ++ [c]) cs

/-- The outer loop of `get_user_commits`: walk every owned repository (the
`updated_at` pre-filter was removed here), skip a repository whose fetch
fails, and break once `limit` commits are gathered. -/
def gatherCommits (limit : ℕ) (since : ℤ) (acc : List CommitRec) :
    List RepoM → List CommitRec
  | [] => acc
  | r :: rs =>
      let acc' :=
        match repoGetCommits r since with
        | .ok cs => addUpTo limit acc cs
        | .error _ => acc
      if limit ≤ acc'.length then acc' else gatherCommits limit since acc' rs

/-- `GitHubClient.get_user_commits`: gather commits repository by repository,
then `commits.sort(key=lambda c: c.commit.author.date, reverse=True)` and
slice `commits[:limit]`. -/
def getUserCommits (repos : List RepoM) (since : ℤ) (limit : ℕ) :
    List CommitRec :=
  (sortDescBy (fun c => c.date) (gatherCommits limit since [] repos)).take limit

/-! ## Commit classifier (`GitHubClient._categorize_commit_message`) -/

/-- The ordered category table of `_categorize_commit_message`. -/
def commitPatterns : List (String × List String) :=
  [("feature", ["feat", "feature", "add", "implement", "new"]),
   ("bugfix", ["fix", "bug", "issue", "problem", "error"]),
   ("refactor", ["refactor", "refactoring", "cleanup", "restructure"]),
   ("documentation", ["docs", "documentation", "readme", "comment"]),
   ("test", ["test", "testing", "spec", "unit test"]),
   ("style", ["style", "formatting", "css", "ui", "design"]),
   ("performance", ["performance", "optimize", "speed", "improve"]),
   ("security", ["security", "vulnerability", "auth", "permission"]),
   ("dependency", ["dependency", "package", "upgrade", "update"]),
   ("configuration", ["config", "configuration", "setting", "env"]),
   ("deployment", ["deploy", "deployment", "release", "build"]),
   ("database", ["database", "migration", "schema", "sql"]),
   ("api", ["api", "endpoint", "route", "service"]),
   ("ui", ["ui", "frontend", "interface", "component"])]

/-- Scan an ordered category table; the first category one of whose keywords
occurs in the (already lower-cased) message wins. -/
def firstMatch (m : String) : List (String × List String) → String
  | [] => "other"
  | (cat, kws) :: rest =>
      if kws.any (fun k => containsSub m k) then cat else firstMatch m rest

/-- `GitHubClient._categorize_commit_message`: lower-case the message, then
first matching category in table order, else `other`. -/
def categorizeCommitMessage (message : String) : String :=
  firstMatch (strToLower message) commitPatterns

/-! ## Tech-signal extractor (`GitHubClient._analyze_file_content`) -/

/-- The `frameworks` rows of the static `tech_patterns` table. -/
def frameworksPatterns : List (String × List String) :=
  [("react", ["react", "jsx", "usestate", "useeffect", "component"]),
   ("angular", ["angular", "@angular", "ngmodule", "component"]),
   ("vue", ["vue", "vuex", "vue-router"]),
   ("django", ["django", "from django", "models.model"]),
   ("flask", ["flask", "from flask", "app = flask"]),
   ("express", ["express", "app.get", "app.post", "req.body"]),
   ("fastapi", ["fastapi", "from fastapi", "@app.get"]),
   ("spring", ["spring", "@controller", "@service", "@repository"]),
   ("rails", ["rails", "activerecord", "controller"]),
   ("laravel", ["laravel", "eloquent", "artisan"]),
   ("nextjs", ["next", "getserversideprops", "getstatic"]),
   ("nuxt", ["nuxt", "asyncdata", "nuxtjs"]),
   ("svelte", ["svelte", "svelte/store"]),
   ("flutter", ["flutter", "widget", "statefulwidget"]),
   ("tensorflow", ["tensorflow", "keras", "tf."]),
   ("pytorch", ["torch", "pytorch", "nn.module"]),
   ("scikit-learn", ["sklearn", "scikit-learn", "fit()", "predict()"])]

/-- The `libraries` rows of the static `tech_patterns` table. -/
def librariesPatterns : List (String × List String) :=
  [("axios", ["axios", "axios.get", "axios.post"]),
   ("lodash", ["lodash", "_.map", "_.filter"]),
   ("moment", ["moment", "moment()"]),
   ("jquery", ["jquery", "$(", "$.ajax"]),
   ("numpy", ["numpy", "np.array", "import numpy"]),
   ("pandas", ["pandas", "pd.dataframe", "import pandas"]),
   ("matplotlib", ["matplotlib", "pyplot", "plt.plot"]),
   ("requests", ["requests", "requests.get", "requests.post"]),
   ("beautifulsoup", ["beautifulsoup", "bs4", "soup.find"]),
   ("selenium", ["selenium", "webdriver", "driver.find"]),
   ("pytest", ["pytest", "def test_", "assert"]),
   ("jest", ["jest", "test(", "expect("]),
   ("mocha", ["mocha", "describe(", "it("]),
   ("cypress", ["cypress", "cy.visit", "cy.get"]),
   ("bootstrap", ["bootstrap", "btn-primary", "container"]),
   ("tailwind", ["tailwind", "bg-blue", "text-center"]),
   ("material-ui", ["material-ui", "mui", "@mui/"]),
   ("styled-components", ["styled-components", "styled.div"])]

/-- The `tools` rows of the static `tech_patterns` table. -/
def toolsPatterns : List (String × List String) :=
  [("webpack", ["webpack", "webpack.config", "module.exports"]),
   ("vite", ["vite", "vite.config", "import.meta"]),
   ("babel", ["babel", ".babelrc", "babel.config"]),
   ("eslint", ["eslint", ".eslintrc", "eslint-disable"]),
   ("prettier", ["prettier", ".prettierrc", "prettier-ignore"]),
   ("typescript", ["typescript", "interface", "type "]),
   ("jest", ["jest", "jest.config", "setupTests"]),
   ("docker", ["docker", "dockerfile", "docker-compose"]),
   ("git", ["git", ".gitignore", "git add"]),
   ("npm", ["package.json", "npm install", "npm run"]),
   ("yarn", ["yarn", "yarn.lock", "yarn add"]),
   ("poetry", ["poetry", "pyproject.toml", "poetry add"]),
   ("pip", ["requirements.txt", "pip install", "pip freeze"]),
   ("gradle", ["gradle", "build.gradle", "gradlew"]),
   ("maven", ["maven", "pom.xml", "mvn"]),
   ("makefile", ["makefile", "make", "gcc"])]

/-- The `databases` rows of the static `tech_patterns` table. -/
def databasesPatterns : List (String × List String) :=
  [("postgresql", ["postgresql", "psycopg2", "pg_dump"]),
   ("mysql", ["mysql", "mysqldump", "pymysql"]),
   ("mongodb", ["mongodb", "mongoose", "pymongo"]),
   ("redis", ["redis", "redis.get", "redis.set"]),
   ("sqlite", ["sqlite", "sqlite3", "db.sqlite"]),
   ("elasticsearch", ["elasticsearch", "es.search", "elastic"]),
   ("cassandra", ["cassandra", "cql", "cassandra-driver"]),
   ("dynamodb", ["dynamodb", "boto3", "dynamodb.table"])]

/-- The `cloud_services` rows of the static `tech_patterns` table. -/
def cloudServicesPatterns : List (String × List String) :=
  [("aws", ["aws", "boto3", "s3.bucket", "lambda", "ec2"]),
   ("gcp", ["gcp", "google-cloud", "bigquery", "datastore"]),
   ("azure", ["azure", "azure-storage", "azure-functions"]),
   ("heroku", ["heroku", "procfile", "heroku.yml"]),
   ("vercel", ["vercel", "vercel.json", "now.json"]),
   ("netlify", ["netlify", "netlify.toml", "_redirects"]),
   ("firebase", ["firebase", "firestore", "firebase.json"]),
   ("cloudflare", ["cloudflare", "workers", "wrangler"])]

/-- The `analysis["tech_stack"]` accumulator: one counter dict per category. -/
structure TechStack where
  frameworks : List (String × ℕ)
  libraries : List (String × ℕ)
  tools : List (String × ℕ)
  databases : List (String × ℕ)
  cloud_services : List (String × ℕ)
deriving DecidableEq

/-- One technology row of the pattern scan: on the first pattern found in the
lower-cased patch the counter is bumped once and the remaining patterns are
skipped (`break`). -/
def scanTech (patchLower : String) (m : List (String × ℕ))
    (row : String × List String) : List (String × ℕ) :=
  if row.2.any (fun p => containsSub patchLower p) then bump m row.1 else m

/-- Scan every technology row of one category table. -/
def scanCategory (patchLower : String) (table : List (String × List String))
    (m : List (String × ℕ)) : List (String × ℕ) :=
  table.foldl (scanTech patchLower) m

/-- `GitHubClient._analyze_file_content`: return unchanged on an empty patch
(`if not patch: return`), otherwise lower-case the patch and scan the five
category tables in the literal order of the `tech_patterns` dict. -/
def analyzeFileContent (patch : String) (ts : TechStack) : TechStack :=
  if patch = "" then ts
  else
    let pl := (strToLower patch)
    { frameworks := scanCategory pl frameworksPatterns ts.frameworks
      libraries := scanCategory pl librariesPatterns ts.libraries
      tools := scanCategory pl toolsPatterns ts.tools
      databases := scanCategory pl databasesPatterns ts.databases
      cloud_services := scanCategory pl cloudServicesPatterns ts.cloud_services }

/-! ## Statistics summarizer (`GitHubClient._calculate_tech_stack_stats`) -/

/-- One entry of `analysis["top_languages"]`: a dict with `language`,
`files` and `percentage` keys. -/
def langEntry (total : ℕ) (p : String × ℕ) : JObj :=
  [("language", .s p.1),
   ("files", .n p.2),
   ("percentage", .q (pyRound1 ((p.2 : ℚ) / (total : ℚ) * 100)))]

/-- One entry of `analysis["top_<category>"]`: a dict with only `name` and
`mentions` keys. -/
def techEntry (p : String × ℕ) : JObj :=
  [("name", .s p.1), ("mentions", .n p.2)]

/-- The `top_languages` derivation: absent (`none`) for an empty table,
otherwise the table stably sorted descending by count, mapped to annotated
entries over the whole table's total, truncated to 10. -/
def topLanguages (pl : List (String × ℕ)) : Option (List JObj) :=
  if pl = [] then none
  else
    let total := (pl.map Prod.snd).sum
    some (((sortDescBy Prod.snd pl).map (langEntry total)).take 10)

/-- The `top_<category>` derivation for one tech-stack category: absent for
an empty table, otherwise stably sorted descending by count, mapped to
`name`/`mentions` entries, truncated to 5. -/
def topTechCategory (tbl : List (String × ℕ)) : Option (List JObj) :=
  if tbl = [] then none
  else some (((sortDescBy Prod.snd tbl).map techEntry).take 5)

/-- The `change_types` derivation: tally the per-commit change-category
labels in order, sort descending, annotate with the share of all labels; not
truncated. -/
def changeTypes (descs : List String) : Option (List JObj) :=
  if descs = [] then none
  else
    let counts := descs.foldl bump []
    some ((sortDescBy Prod.snd counts).map (fun p =>
      [("type", .s p.1),
       ("count", .n p.2),
       ("percentage", .q (pyRound1 ((p.2 : ℚ) / (descs.length : ℚ) * 100)))]))

/-! ## Server tool boundary (`GitHubActionsServer`) -/

/-- The outcome of one tool call as the protocol layer sees it: a list of
text contents, or an exception propagating out of the handler. -/
inductive CallResult where
  | contents : List String → CallResult
  | raised : String → CallResult
deriving DecidableEq

/-- Shallow rendering of one payload value; stands for the `json.dumps`
fragments (an external serializer, total on these values). -/
def jValFlat : JVal → String
  | .s v => v
  | .n v => toString v
  | .q v => toString v
  | .obj _ => "object"
  | .arr _ => "array"

/-- Shallow rendering of a payload dict (stands for `json.dumps`). -/
def jObjFlat (o : JObj) : String :=
  String.intercalate ", " (o.map (fun p => p.1 ++ "=" ++ jValFlat p.2))

/-- The record the server builds for one user event, rendered to text
(`json.dumps(formatted_events, indent=2)` abstracted to a total rendering). -/
def renderUserEvent (e : EventM) : String :=
  e.type ++ " " ++ e.actorLogin.getD "Unknown" ++ " " ++
    e.repoName.getD "Unknown" ++ " " ++ toString e.created_at ++ " " ++
    jObjFlat (formatEventPayload e)

/-- Rendering of the repository-event records (no `repo` field). -/
def renderRepoEvent (e : EventM) : String :=
  e.type ++ " " ++ e.actorLogin.getD "Unknown" ++ " " ++
    toString e.created_at ++ " " ++ jObjFlat (formatEventPayload e)

/-- Rendering of one formatted commit record. -/
def renderCommit (c : CommitRec) : String :=
  c.sha ++ " " ++ c.message ++ " " ++ toString c.date ++ " " ++ c.url

/-- Rendering of the activity JSON. -/
def renderActivity (a : ActivityResult) : String :=
  toString a.summary.total_events ++ " events, " ++
    toString a.commits.length ++ " commits"

/-- `GitHubActionsServer._get_user_events`: the whole body is wrapped in
`try/except Exception`, so a client failure becomes an error text. -/
def serverGetUserEvents (res : Except String (List EventM)) : String :=
  match res with
  | .ok evts => String.intercalate "\n" (evts.map renderUserEvent)
  | .error e => "Error getting user events: " ++ e

/-- `GitHubActionsServer._get_repository_events`. -/
def serverGetRepositoryEvents (res : Except String (List EventM)) : String :=
  match res with
  | .ok evts => String.intercalate "\n" (evts.map renderRepoEvent)
  | .error e => "Error getting repository events: " ++ e

/-- `GitHubActionsServer._get_user_activity`. -/
def serverGetUserActivity (res : Except String ActivityResult) : String :=
  match res with
  | .ok a => renderActivity a
  | .error e => "Error getting user activity: " ++ e

/-- `GitHubActionsServer._get_user_commits`. -/
def serverGetUserCommits (res : Except String (List CommitRec)) : String :=
  match res with
  | .ok cs => String.intercalate "\n" (cs.map renderCommit)
  | .error e => "Error getting user commits: " ++ e

/-- The outcomes of the four client calls a tool invocation may trigger
(each is `.error` when the client raises). Arguments are taken as
well-formed; the handler reads them before any `try`. -/
structure ClientOutcomes where
  userEvents : Except String (List EventM)
  repoEvents : Except String (List EventM)
  activity : Except String ActivityResult
  commits : Except String (List CommitRec)

/-- The names registered by `handle_list_tools`. -/
def registeredTools : List String :=
  ["get_user_events", "get_repository_events", "get_user_activity",
   "get_user_commits"]

/-- `handle_call_tool`: dispatch on the tool name; each recognized branch
returns one text content (its `_get_*` helper never lets an exception out),
while an unknown name raises `ValueError(f"Unknown tool: {name}")`. -/
def handleCallTool (name : String) (oc : ClientOutcomes) : CallResult :=
  if name = "get_user_events" then
    .contents [serverGetUserEvents oc.userEvents]
  else if name = "get_repository_events" then
    .contents [serverGetRepositoryEvents oc.repoEvents]
  else if name = "get_user_activity" then
    .contents [serverGetUserActivity oc.activity]
  else if name = "get_user_commits" then
    .contents [serverGetUserCommits oc.commits]
  else
    .raised ("Unknown tool: " ++ name)

/-- A concrete set of client outcomes in which every upstream call fails. -/
def failingOutcomes : ClientOutcomes :=
  { userEvents := .error "404 user not found"
    repoEvents := .error "404 repo not found"
    activity := .error "rate limited"
    commits := .error "rate limited" }

/-! ## Methodology inference (`GitHubClient._infer_methodologies`) -/

/-- The five methodology sentences the code can ever append. -/
def methodologyUniverse : List String :=
  ["CI/CD", "Test-Driven Development", "Agile Development", "DevOps",
   "Version Control"]

/-- The sequential appends of `_infer_methodologies`, before deduplication:
`toolsLower` is `[tool["name"].lower() for tool in top_tools]` and
`commitCount` is `len(commits)`. -/
def buildMethodologiesRaw (toolsLower : List String) (commitCount : ℕ) :
    List String :=
  (if toolsLower.any (fun t =>
      t ∈ ["docker", "makefile", "git", "github-actions"]) then ["CI/CD"]
   else []) ++
  (if toolsLower.any (fun t => t ∈ ["pytest", "jest", "mocha"]) then
      ["Test-Driven Development"]
   else []) ++
  (if 50 < commitCount then ["Agile Development"] else []) ++
  (if "docker" ∈ toolsLower then ["DevOps"] else []) ++
  (if "git" ∈ toolsLower then ["Version Control"] else [])

/-- The sequential appends followed by the default
(`if not methodologies: methodologies = [...]`). -/
def buildMethodologies (toolsLower : List String) (commitCount : ℕ) :
    List String :=
  if buildMethodologiesRaw toolsLower commitCount = [] then
    ["Agile Development", "Version Control"]
  else buildMethodologiesRaw toolsLower commitCount

/-- Python's `list(set(xs))`: each distinct element once, in the hash-table
iteration order of the interpreter.  The order is modelled by `setOrder`, an
enumeration (hash order) of the candidate strings; with string hash
randomization it differs from process to process. -/
def pySetToList (setOrder : List String) (xs : List String) : List String :=
  setOrder.filter (fun x => decide (x ∈ xs))

/-- `GitHubClient._infer_methodologies`:
`return list(set(methodologies))[:5]`. -/
def inferMethodologies (setOrder : List String) (toolsLower : List String)
    (commitCount : ℕ) : List String :=
  (pySetToList setOrder (buildMethodologies toolsLower commitCount)).take 5

/-- A concrete owned repository whose own `updated_at` predates the cutoff
while it contains a commit inside the window. -/
def staleRepo : RepoM :=
  { full_name := "alice/old-project"
    updated_at := 0
    fetchOk := true
    commitsAll := [⟨"abc123", "Fix the parser", 10, "https://example/c"⟩] }

/-! ## Supporting lemmas -/

section StableSortLemmas

variable {α : Type} {β : Type} [LinearOrder β]

theorem mem_insertDescBy (key : α → β) (x : α) (l : List α) (z : α) :
    z ∈ insertDescBy key x l ↔ z = x ∨ z ∈ l := by
  induction l with
  | nil => simp [insertDescBy]
  | cons y ys ih =>
      by_cases h : key y ≤ key x
      · simp [insertDescBy, h]
      · simp [insertDescBy, h, ih]
        tauto

theorem perm_insertDescBy (key : α → β) (x : α) (l : List α) :
    (insertDescBy key x l).Perm (x :: l) := by
  induction l with
  | nil => simp [insertDescBy]
  | cons y ys ih =>
      by_cases h : key y ≤ key x
      · simp [insertDescBy, h]
      · simp only [insertDescBy, h, if_false]
        exact ((ih.cons y).trans (List.Perm.swap x y ys))

theorem perm_sortDescBy (key : α → β) (l : List α) :
    (sortDescBy key l).Perm l := by
  induction l with
  | nil => simp [sortDescBy]
  | cons x xs ih =>
      exact (perm_insertDescBy key x (sortDescBy key xs)).trans (ih.cons x)

theorem sorted_insertDescBy (key : α → β) (x : α) (l : List α)
    (h : List.Sorted (fun a b => key b ≤ key a) l) :
    List.Sorted (fun a b => key b ≤ key a) (insertDescBy key x l) := by
  induction l with
  | nil => simp [insertDescBy]
  | cons y ys ih =>
      rw [List.sorted_cons] at h
      by_cases hk : key y ≤ key x
      · rw [insertDescBy, if_pos hk, List.sorted_cons]
        constructor
        · intro z hz
          rw [List.mem_cons] at hz
          rcases hz with rfl | hz
          · exact hk
          · exact le_trans (h.1 z hz) hk
        · rw [List.sorted_cons]
          exact h
      · rw [insertDescBy, if_neg hk, List.sorted_cons]
        constructor
        · intro z hz
          rcases (mem_insertDescBy key x ys z).mp hz with rfl | hz
          · exact le_of_lt (lt_of_not_le hk)
          · exact h.1 z hz
        · exact ih h.2

theorem sorted_sortDescBy (key : α → β) (l : List α) :
    List.Sorted (fun a b => key b ≤ key a) (sortDescBy key l) := by
  induction l with
  | nil => simp [sortDescBy]
  | cons x xs ih => exact sorted_insertDescBy key x _ ih

theorem filter_insertDescBy (key : α → β) (x : α) (l : List α) (c : β) :
    (insertDescBy key x l).filter (fun a => decide (key a = c)) =
      if key x = c then x :: l.filter (fun a => decide (key a = c))
      else l.filter (fun a => decide (key a = c)) := by
  induction l with
  | nil =>
      by_cases hx : key x = c <;> simp [insertDescBy, List.filter, hx]
  | cons y ys ih =>
      by_cases hk : key y ≤ key x
      · rw [insertDescBy, if_pos hk]
        by_cases hx : key x = c <;> by_cases hy : key y = c <;>
          simp [List.filter, hx, hy]
      · rw [insertDescBy, if_neg hk]
        have hlt : key x < key y := lt_of_not_le hk
        by_cases hx : key x = c
        · have hy : ¬ key y = c := by
            intro hy
            exact absurd (hy.trans hx.symm) (ne_of_gt hlt)
          simp [List.filter, hx, hy, ih]
        · by_cases hy : key y = c <;>
            simp [List.filter, hx, hy, ih]

/-- Stability of the descending sort: elements sharing one key value keep
their original (insertion) order. -/
theorem filter_sortDescBy (key : α → β) (l : List α) (c : β) :
    (sortDescBy key l).filter (fun a => decide (key a = c)) =
      l.filter (fun a => decide (key a = c)) := by
  induction l with
  | nil => simp [sortDescBy]
  | cons x xs ih =>
      rw [sortDescBy, filter_insertDescBy]
      by_cases hx : key x = c <;> simp [List.filter, hx, ih]

end StableSortLemmas

theorem cntGet_bump (m : List (String × ℕ)) (k j : String) :
    cntGet (bump m k) j = cntGet m j + (if j = k then 1 else 0) := by
  induction m with
  | nil =>
      by_cases hj : j = k
      · simp [bump, cntGet, hj]
      · have : ¬ k = j := fun h => hj h.symm
        simp [bump, cntGet, hj, this]
  | cons p rest ih =>
      obtain ⟨k', v⟩ := p
      by_cases hk : k' = k
      · subst hk
        by_cases hj : j = k'
        · simp [bump, cntGet, hj]
        · have : ¬ k' = j := fun h => hj h.symm
          simp [bump, cntGet, hj, this]
      · by_cases hj : k' = j
        · subst hj
          simp [bump, cntGet, hk]
        · simp [bump, cntGet, hk, hj, ih]

theorem takeLimit_length {α : Type} (limit : ℕ) :
    ∀ (l : List α) (i : ℕ), (takeLimit limit l i).length ≤ limit - i := by
  intro l
  induction l with
  | nil => intro i; simp [takeLimit]
  | cons x xs ih =>
      intro i
      by_cases h : limit ≤ i
      · simp [takeLimit, h]
      · have := ih (i + 1)
        simp only [takeLimit, h, if_false, List.length_cons]
        omega

theorem cntGet_scanTech_ne (pl : String) (m : List (String × ℕ))
    (row : String × List String) (t : String) (h : row.1 ≠ t) :
    cntGet (scanTech pl m row) t = cntGet m t := by
  unfold scanTech
  split
  · rw [cntGet_bump]
    have hne : ¬ t = row.1 := fun hh => h hh.symm
    simp [hne]
  · rfl

theorem cntGet_scanCategory_notmem (pl : String)
    (table : List (String × List String)) (m : List (String × ℕ)) (t : String)
    (h : t ∉ table.map Prod.fst) :
    cntGet (scanCategory pl table m) t = cntGet m t := by
  induction table generalizing m with
  | nil => rfl
  | cons row rest ih =>
      simp only [List.map_cons, List.mem_cons] at h
      push_neg at h
      rw [scanCategory, List.foldl_cons]
      rw [show List.foldl (scanTech pl) (scanTech pl m row) rest =
            scanCategory pl rest (scanTech pl m row) from rfl]
      rw [ih _ h.2, cntGet_scanTech_ne pl m row t (fun hh => h.1 hh.symm)]

theorem cntGet_scanCategory_mem (pl : String)
    (table : List (String × List String)) (m : List (String × ℕ))
    (t : String) (pats : List String)
    (hnd : (table.map Prod.fst).Nodup) (hmem : (t, pats) ∈ table) :
    cntGet (scanCategory pl table m) t =
      cntGet m t +
        (if pats.any (fun p => containsSub pl p) = true then 1 else 0) := by
  induction table generalizing m with
  | nil => cases hmem
  | cons row rest ih =>
      simp only [List.map_cons, List.nodup_cons] at hnd
      rw [List.mem_cons] at hmem
      rcases hmem with heq | hmem
      · -- the technology is the head row; its name is absent from the tail
        have hrow : row = (t, pats) := heq.symm
        subst hrow
        have hnot : t ∉ rest.map Prod.fst := hnd.1
        rw [scanCategory, List.foldl_cons]
        rw [show List.foldl (scanTech pl) (scanTech pl m (t, pats)) rest =
              scanCategory pl rest (scanTech pl m (t, pats)) from rfl]
        rw [cntGet_scanCategory_notmem pl rest _ t hnot]
        unfold scanTech
        split
        · rename_i hany
          rw [cntGet_bump]
          simp [hany]
        · rename_i hany
          simp at hany
          simp [hany]
      · -- the technology sits in the tail; the head row has a different name
        have htin : t ∈ rest.map Prod.fst :=
          List.mem_map.mpr ⟨(t, pats), hmem, rfl⟩
        have hne : row.1 ≠ t := fun hh => hnd.1 (hh ▸ htin)
        rw [scanCategory, List.foldl_cons]
        rw [show List.foldl (scanTech pl) (scanTech pl m row) rest =
              scanCategory pl rest (scanTech pl m row) from rfl]
        rw [ih _ hnd.2 hmem, cntGet_scanTech_ne pl m row t hne]

theorem firstMatch_mem (m : String) (l : List (String × List String)) :
    firstMatch m l ∈ l.map Prod.fst ++ ["other"] := by
  induction l with
  | nil => simp [firstMatch]
  | cons row rest ih =>
      rw [firstMatch]
      split
      · simp
      · simp only [List.map_cons, List.cons_append, List.mem_cons]
        exact Or.inr ih

theorem firstMatch_of_first (m : String) :
    ∀ (l : List (String × List String)) (i : ℕ) (cat : String)
      (kws : List String),
      l.get? i = some (cat, kws) →
      kws.any (fun k => containsSub m k) = true →
      (∀ j, j < i →
        ((l.get? j).map (fun row => row.2.any (fun k => containsSub m k))).getD
            false = false) →
      firstMatch m l = cat := by
  intro l
  induction l with
  | nil => intro i cat kws hg; simp at hg
  | cons row rest ih =>
      intro i cat kws hg hany hprev
      cases i with
      | zero =>
          simp only [List.get?] at hg
          injection hg with hg
          rw [firstMatch]
          rw [show row = (cat, kws) from hg]
          simp [hany]
      | succ i' =>
          have hhead : row.2.any (fun k => containsSub m k) = false := by
            have := hprev 0 (Nat.succ_pos i')
            simpa using this
          have hg' : rest.get? i' = some (cat, kws) := by
            simpa using hg
          rw [firstMatch]
          rw [if_neg (by simp [hhead])]
          refine ih i' cat kws hg' hany (fun j hj => ?_)
          have := hprev (j + 1) (Nat.succ_lt_succ hj)
          simpa using this

theorem firstMatch_none (m : String) (l : List (String × List String))
    (h : ∀ row ∈ l, row.2.any (fun k => containsSub m k) = false) :
    firstMatch m l = "other" := by
  induction l with
  | nil => rfl
  | cons row rest ih =>
      rw [firstMatch, if_neg (by simp [h row (List.mem_cons_self row rest)])]
      exact ih (fun r hr => h r (List.mem_cons_of_mem row hr))

theorem buildMethodologiesRaw_subset (tl : List String) (n : ℕ) :
    buildMethodologiesRaw tl n ⊆ methodologyUniverse := by
  intro x hx
  unfold buildMethodologiesRaw at hx
  simp only [List.mem_append] at hx
  rcases hx with (((h | h) | h) | h) | h <;>
    (split at h <;> simp_all [methodologyUniverse])

theorem buildMethodologies_subset (tl : List String) (n : ℕ) :
    buildMethodologies tl n ⊆ methodologyUniverse := by
  intro x hx
  unfold buildMethodologies at hx
  split at hx
  · simp only [List.mem_cons, List.not_mem_nil, or_false] at hx
    rcases hx with rfl | rfl <;> simp [methodologyUniverse]
  · exact buildMethodologiesRaw_subset tl n hx

theorem aggregateEvents_foldl_spec (since : ℤ) (evts : List EventM) :
    ∀ st : ActSummary × List EvOut,
      (evts.foldl (stepEvent since) st).2 =
          st.2 ++ (evts.filter (fun e => decide (since ≤ e.created_at))).map evOutOf ∧
      (evts.foldl (stepEvent since) st).1.total_events =
          st.1.total_events +
            (evts.filter (fun e => decide (since ≤ e.created_at))).length ∧
      (∀ t, cntGet (evts.foldl (stepEvent since) st).1.event_types t =
          cntGet st.1.event_types t +
            ((evts.filter (fun e => decide (since ≤ e.created_at))).filter
              (fun e => decide (e.type = t))).length) ∧
      (evts.foldl (stepEvent since) st).1.repositories_active =
          st.1.repositories_active ∪
            ((evts.filter (fun e => decide (since ≤ e.created_at))).filterMap
              (fun e => e.repoName)).toFinset := by
  induction evts with
  | nil => intro st; simp
  | cons e es ih =>
      intro st
      by_cases hlt : e.created_at < since
      · have hks : decide ((since : ℤ) ≤ e.created_at) = false := by
          simp [not_le.mpr hlt]
        have hstep : stepEvent since st e = st := by
          simp [stepEvent, hlt]
        simp only [List.foldl_cons, List.filter_cons, hks, Bool.false_eq_true,
          if_false, hstep]
        exact ih st
      · have hle : since ≤ e.created_at := not_lt.mp hlt
        have hks : decide ((since : ℤ) ≤ e.created_at) = true := by
          simp [hle]
        obtain ⟨ih1, ih2, ih3, ih4⟩ := ih (stepEvent since st e)
        have hsnd : (stepEvent since st e).2 = st.2 ++ [evOutOf e] := by
          simp [stepEvent, hlt]
        have hte : (stepEvent since st e).1.total_events
            = st.1.total_events + 1 := by
          simp [stepEvent, hlt]
        have het : (stepEvent since st e).1.event_types
            = bump st.1.event_types e.type := by
          simp [stepEvent, hlt]
        refine ⟨?_, ?_, ?_, ?_⟩
        · simp only [List.foldl_cons, List.filter_cons, hks, if_true]
          rw [ih1, hsnd, List.map_cons]
          simp
        · simp only [List.foldl_cons, List.filter_cons, hks, if_true]
          rw [ih2, hte, List.length_cons]
          omega
        · intro t
          simp only [List.foldl_cons, List.filter_cons, hks, if_true]
          rw [ih3 t, het, cntGet_bump]
          by_cases ht : e.type = t
          · have hd : decide (e.type = t) = true := by simp [ht]
            rw [hd, if_pos rfl, List.length_cons, if_pos ht.symm]
            omega
          · have hd : decide (e.type = t) = false := by simp [ht]
            rw [hd, if_neg Bool.false_ne_true,
              if_neg (fun hh : t = e.type => ht hh.symm)]
            omega
        · simp only [List.foldl_cons, List.filter_cons, hks, if_true]
          rw [ih4]
          cases hrn : e.repoName with
          | none =>
              have hra : (stepEvent since st e).1.repositories_active
                  = st.1.repositories_active := by
                simp [stepEvent, hlt, hrn]
              rw [hra, List.filterMap_cons]
              simp [hrn]
          | some nm =>
              have hra : (stepEvent since st e).1.repositories_active
                  = insert nm st.1.repositories_active := by
                simp [stepEvent, hlt, hrn]
              rw [hra, List.filterMap_cons]
              simp only [hrn, List.toFinset_cons]
              rw [Finset.insert_union, Finset.union_insert]

/-! ## Claim theorems -/

/-- C4: for every time window `since`, every event appearing in an
ActivitySummary's event list has `created_at >= since`, `total_events`
counts exactly the in-window events, `event_types` tallies only in-window
events, and `repositories_active` holds exactly the repository names of
in-window events — no event older than the cutoff is accumulated. -/
theorem c4_window_filter (since : ℤ) (evts : List EventM) (repos : List RepoM) :
    (∀ o ∈ (getUserActivity since evts repos).events, since ≤ o.created_at) ∧
    (getUserActivity since evts repos).summary.total_events =
      (evts.filter (fun e => decide (since ≤ e.created_at))).length ∧
    (∀ t, cntGet (getUserActivity since evts repos).summary.event_types t =
      ((evts.filter (fun e => decide (since ≤ e.created_at))).filter
        (fun e => decide (e.type = t))).length) ∧
    (∀ nm, nm ∈ (getUserActivity since evts repos).summary.repositories_active ↔
      ∃ e ∈ evts, since ≤ e.created_at ∧ e.repoName = some nm) := by
  obtain ⟨h1, h2, h3, h4⟩ :=
    aggregateEvents_foldl_spec since evts (⟨0, ∅, []⟩, ([] : List EvOut))
  refine ⟨?_, ?_, ?_, ?_⟩
  · intro o ho
    have heq : (getUserActivity since evts repos).events
        = (evts.foldl (stepEvent since) (⟨0, ∅, []⟩, [])).2 := rfl
    rw [heq, h1] at ho
    simp only [List.nil_append, List.mem_map, List.mem_filter,
      decide_eq_true_eq] at ho
    obtain ⟨e, ⟨_, hc⟩, rfl⟩ := ho
    exact hc
  · have heq : (getUserActivity since evts repos).summary.total_events
        = (evts.foldl (stepEvent since) (⟨0, ∅, []⟩, [])).1.total_events := rfl
    rw [heq, h2]
    simp
  · intro t
    have heq : cntGet (getUserActivity since evts repos).summary.event_types t
        = cntGet (evts.foldl (stepEvent since)
            (⟨0, ∅, []⟩, [])).1.event_types t := rfl
    rw [heq, h3 t]
    simp [cntGet]
  · intro nm
    have heq : (getUserActivity since evts repos).summary.repositories_active
        = (evts.foldl (stepEvent since)
            (⟨0, ∅, []⟩, [])).1.repositories_active := rfl
    rw [heq, h4]
    simp only [Finset.empty_union, List.mem_toFinset, List.mem_filterMap,
      List.mem_filter, decide_eq_true_eq]
    constructor
    · rintro ⟨e, ⟨he, hc⟩, hr⟩
      exact ⟨e, he, hc, hr⟩
    · rintro ⟨e, he, hc, hr⟩
      exact ⟨e, ⟨he, hc⟩, hr⟩

/-- C7: every limit-bounded fetch — `get_user_events`,
`get_repository_events` and `get_user_commits` — returns at most `limit`
items, for every limit value and every upstream stream. -/
theorem c7_limit_bound (uevts revts : List EventM) (repos : List RepoM)
    (since : ℤ) (limit : ℕ) :
    (getUserEvents uevts limit).length ≤ limit ∧
    (getRepositoryEvents revts limit).length ≤ limit ∧
    (getUserCommits repos since limit).length ≤ limit := by
  refine ⟨?_, ?_, ?_⟩
  · have h := takeLimit_length limit uevts 0
    rw [getUserEvents]
    omega
  · have h := takeLimit_length limit revts 0
    rw [getRepositoryEvents]
    omega
  · calc (getUserCommits repos since limit).length
        = min limit (sortDescBy (fun c => c.date)
            (gatherCommits limit since [] repos)).length := by
          rw [getUserCommits, List.length_take]
      _ ≤ limit := min_le_left _ _

/-- C10: the list returned by `get_user_commits` is always sorted by commit
author date in descending order (newest first), because the gathered commits
are sorted with `reverse=True` before the final truncation. -/
theorem c10_commits_sorted_desc (repos : List RepoM) (since : ℤ) (limit : ℕ) :
    List.Sorted (fun a b : CommitRec => b.date ≤ a.date)
      (getUserCommits repos since limit) := by
  rw [getUserCommits]
  exact List.Pairwise.sublist (List.take_sublist _ _)
    (sorted_sortDescBy (fun c : CommitRec => c.date)
      (gatherCommits limit since [] repos))

/-- C5: the classifier returns the first category in the fixed table order
one of whose keywords occurs as a case-insensitive substring of the message,
returns `other` when no keyword matches, is deterministic on equal messages,
and always lands in the 14 named categories or `other`. -/
theorem c5_classifier_first_match (message : String) :
    categorizeCommitMessage message ∈ commitPatterns.map Prod.fst ++ ["other"] ∧
    categorizeCommitMessage message = categorizeCommitMessage message ∧
    (∀ i cat kws, commitPatterns.get? i = some (cat, kws) →
      kws.any (fun k => containsSub (strToLower message) k) = true →
      (∀ j, j < i → ((commitPatterns.get? j).map
          (fun row => row.2.any (fun k => containsSub (strToLower message) k))).getD
            false = false) →
      categorizeCommitMessage message = cat) ∧
    ((∀ row ∈ commitPatterns,
        row.2.any (fun k => containsSub (strToLower message) k) = false) →
      categorizeCommitMessage message = "other") := by
  refine ⟨?_, rfl, ?_, ?_⟩
  · exact firstMatch_mem (strToLower message) commitPatterns
  · intro i cat kws hg hany hprev
    exact firstMatch_of_first (strToLower message) commitPatterns i cat kws hg hany
      hprev
  · intro h
    exact firstMatch_none (strToLower message) commitPatterns h

/-- Witness for C5: `"Fix login bug"` matches the `bugfix` row (index 1)
while the earlier `feature` row does not, so the classifier returns
`bugfix` — the spec's own scenario. -/
theorem c5_classifier_first_match_witness :
    commitPatterns.get? 1 =
      some ("bugfix", ["fix", "bug", "issue", "problem", "error"]) ∧
    categorizeCommitMessage "Fix login bug" = "bugfix" := by
  refine ⟨rfl, ?_⟩
  exact (c5_classifier_first_match "Fix login bug").2.2.1 1 "bugfix"
    ["fix", "bug", "issue", "problem", "error"] rfl (by decide) (by decide)

/-- C6: for every file-diff and every technology row of the five static
tables, the extractor bumps that technology's counter by exactly 1 when any
of its substrings occurs in the case-folded diff, and leaves it unchanged
otherwise — never more than one increment per file-diff per technology. -/
theorem c6_tech_counter_once (patch : String) (ts : TechStack) :
    (∀ row ∈ frameworksPatterns,
      cntGet (analyzeFileContent patch ts).frameworks row.1 =
        cntGet ts.frameworks row.1 +
          (if patch ≠ "" ∧
              row.2.any (fun p => containsSub (strToLower patch) p) = true
           then 1 else 0)) ∧
    (∀ row ∈ librariesPatterns,
      cntGet (analyzeFileContent patch ts).libraries row.1 =
        cntGet ts.libraries row.1 +
          (if patch ≠ "" ∧
              row.2.any (fun p => containsSub (strToLower patch) p) = true
           then 1 else 0)) ∧
    (∀ row ∈ toolsPatterns,
      cntGet (analyzeFileContent patch ts).tools row.1 =
        cntGet ts.tools row.1 +
          (if patch ≠ "" ∧
              row.2.any (fun p => containsSub (strToLower patch) p) = true
           then 1 else 0)) ∧
    (∀ row ∈ databasesPatterns,
      cntGet (analyzeFileContent patch ts).databases row.1 =
        cntGet ts.databases row.1 +
          (if patch ≠ "" ∧
              row.2.any (fun p => containsSub (strToLower patch) p) = true
           then 1 else 0)) ∧
    (∀ row ∈ cloudServicesPatterns,
      cntGet (analyzeFileContent patch ts).cloud_services row.1 =
        cntGet ts.cloud_services row.1 +
          (if patch ≠ "" ∧
              row.2.any (fun p => containsSub (strToLower patch) p) = true
           then 1 else 0)) := by
  have hndf : (frameworksPatterns.map Prod.fst).Nodup := by decide
  have hndl : (librariesPatterns.map Prod.fst).Nodup := by decide
  have hndt : (toolsPatterns.map Prod.fst).Nodup := by decide
  have hndd : (databasesPatterns.map Prod.fst).Nodup := by decide
  have hndc : (cloudServicesPatterns.map Prod.fst).Nodup := by decide
  by_cases hp : patch = ""
  · subst hp
    refine ⟨?_, ?_, ?_, ?_, ?_⟩ <;>
      (intro row _; simp [analyzeFileContent])
  · refine ⟨?_, ?_, ?_, ?_, ?_⟩ <;> intro row hrow
    · have hmem : (row.1, row.2) ∈ frameworksPatterns := by simpa using hrow
      have h := cntGet_scanCategory_mem (strToLower patch) frameworksPatterns
        ts.frameworks row.1 row.2 hndf hmem
      have hfield : (analyzeFileContent patch ts).frameworks =
          scanCategory (strToLower patch) frameworksPatterns ts.frameworks := by
        simp [analyzeFileContent, hp]
      rw [hfield, h]
      by_cases hx : row.2.any (fun p => containsSub (strToLower patch) p) = true <;>
        simp [hp, hx]
    · have hmem : (row.1, row.2) ∈ librariesPatterns := by simpa using hrow
      have h := cntGet_scanCategory_mem (strToLower patch) librariesPatterns
        ts.libraries row.1 row.2 hndl hmem
      have hfield : (analyzeFileContent patch ts).libraries =
          scanCategory (strToLower patch) librariesPatterns ts.libraries := by
        simp [analyzeFileContent, hp]
      rw [hfield, h]
      by_cases hx : row.2.any (fun p => containsSub (strToLower patch) p) = true <;>
        simp [hp, hx]
    · have hmem : (row.1, row.2) ∈ toolsPatterns := by simpa using hrow
      have h := cntGet_scanCategory_mem (strToLower patch) toolsPatterns
        ts.tools row.1 row.2 hndt hmem
      have hfield : (analyzeFileContent patch ts).tools =
          scanCategory (strToLower patch) toolsPatterns ts.tools := by
        simp [analyzeFileContent, hp]
      rw [hfield, h]
      by_cases hx : row.2.any (fun p => containsSub (strToLower patch) p) = true <;>
        simp [hp, hx]
    · have hmem : (row.1, row.2) ∈ databasesPatterns := by simpa using hrow
      have h := cntGet_scanCategory_mem (strToLower patch) databasesPatterns
        ts.databases row.1 row.2 hndd hmem
      have hfield : (analyzeFileContent patch ts).databases =
          scanCategory (strToLower patch) databasesPatterns ts.databases := by
        simp [analyzeFileContent, hp]
      rw [hfield, h]
      by_cases hx : row.2.any (fun p => containsSub (strToLower patch) p) = true <;>
        simp [hp, hx]
    · have hmem : (row.1, row.2) ∈ cloudServicesPatterns := by simpa using hrow
      have h := cntGet_scanCategory_mem (strToLower patch) cloudServicesPatterns
        ts.cloud_services row.1 row.2 hndc hmem
      have hfield : (analyzeFileContent patch ts).cloud_services =
          scanCategory (strToLower patch) cloudServicesPatterns
            ts.cloud_services := by
        simp [analyzeFileContent, hp]
      rw [hfield, h]
      by_cases hx : row.2.any (fun p => containsSub (strToLower patch) p) = true <;>
        simp [hp, hx]

/-- Witness for C6: a diff containing `"import pandas"` twice bumps the
`libraries.pandas` counter by exactly 1, even though two of the row's
substrings occur and the occurrences repeat. -/
theorem c6_tech_counter_once_witness :
    ("pandas", ["pandas", "pd.dataframe", "import pandas"]) ∈
      librariesPatterns ∧
    cntGet (analyzeFileContent "import pandas\nimport pandas"
        ⟨[], [], [], [], []⟩).libraries "pandas" =
      cntGet ([] : List (String × ℕ)) "pandas" +
        (if ("import pandas\nimport pandas" : String) ≠ "" ∧
            (["pandas", "pd.dataframe", "import pandas"].any
              (fun p =>
                containsSub (strToLower "import pandas\nimport pandas") p)) = true
         then 1 else 0) :=
  ⟨by decide,
   (c6_tech_counter_once "import pandas\nimport pandas"
      ⟨[], [], [], [], []⟩).2.1
     ("pandas", ["pandas", "pd.dataframe", "import pandas"]) (by decide)⟩

/-- Counterexample for C2: for the unrecognized `GollumEvent` with a
non-empty payload, the server-side projection `_format_event_payload`
returns the empty record, not the raw payload — the claim as stated fails
for that cited projection. -/
theorem c2_format_payload_cex :
    formatEventPayload gollumEvent = [] ∧ gollumEvent.payload ≠ [] := by
  refine ⟨rfl, ?_⟩
  simp [gollumEvent]

/-- C2 (amended): for every event whose type is outside the eight recognized
types, the client-side `_extract_event_payload` returns the raw payload
unchanged (an empty payload degrades to `{}`, which is the same value),
while the server-side `_format_event_payload` returns the empty record. -/
theorem c2_unrecognized_passthrough (e : EventM)
    (h : e.type ∉ recognizedEventTypes) :
    extractEventPayload e = e.payload ∧ formatEventPayload e = [] := by
  simp only [recognizedEventTypes, List.mem_cons, List.not_mem_nil, or_false,
    not_or] at h
  obtain ⟨h1, h2, h3, h4, h5, h6, h7, h8⟩ := h
  constructor
  · rw [extractEventPayload, if_neg h1, if_neg h2, if_neg h3, if_neg h4,
      if_neg h5, if_neg h6, if_neg h7, if_neg h8]
    cases hp : e.payload with
    | nil => simp [hp]
    | cons a l => simp [hp]
  · rw [formatEventPayload, if_neg h1, if_neg h2, if_neg h3, if_neg h4,
      if_neg h5, if_neg h6, if_neg h7]

/-- Witness for C2 at the concrete `GollumEvent`. -/
theorem c2_unrecognized_passthrough_witness :
    gollumEvent.type ∉ recognizedEventTypes ∧
    (extractEventPayload gollumEvent = gollumEvent.payload ∧
      formatEventPayload gollumEvent = []) :=
  ⟨by decide, c2_unrecognized_passthrough gollumEvent (by decide)⟩

/-- Counterexample for C3: `get_user_activity` skips a repository whose own
`updated_at` predates the cutoff, so this repository's in-window commit
(dated 10 ≥ 5) never reaches the summary's commit list. -/
theorem c3_repo_prefilter_cex :
    activityCommits 5 [staleRepo] = [] ∧
    staleRepo.commitsAll =
      [⟨"abc123", "Fix the parser", 10, "https://example/c"⟩] ∧
    (5 : ℤ) ≤ 10 := by
  refine ⟨rfl, rfl, by norm_num⟩

/-- C3 (amended): in `get_user_activity`, every owned repository whose own
`updated_at` is at or after the cutoff and whose fetch succeeds contributes
all of its in-window authored commits to the summary; a repository whose
`updated_at` predates the cutoff is skipped entirely, and a per-repository
fetch error skips only that repository. -/
theorem c3_inwindow_commits_included (since : ℤ) (repos : List RepoM)
    (r : RepoM) (hu : since ≤ r.updated_at) (hok : r.fetchOk = true)
    (c : CommitRec) (hc : c ∈ r.commitsAll) (hd : since ≤ c.date)
    (hr : r ∈ repos) :
    (⟨c.sha, c.message, r.full_name, c.date, c.url⟩ : ActCommitRec) ∈
      activityCommits since repos := by
  induction repos with
  | nil => cases hr
  | cons r0 rs ih =>
      rw [List.mem_cons] at hr
      rcases hr with rfl | hr
      · have hg : repoGetCommits r since =
            .ok (r.commitsAll.filter (fun c => decide (since ≤ c.date))) := by
          rw [repoGetCommits, if_pos hok]
        simp only [activityCommits, if_neg (not_lt.mpr hu), hg]
        apply List.mem_append_left
        exact List.mem_map.mpr
          ⟨c, List.mem_filter.mpr ⟨hc, by simp [hd]⟩, rfl⟩
      · have htail := ih hr
        by_cases h0 : r0.updated_at < since
        · simp only [activityCommits, if_pos h0]
          exact htail
        · simp only [activityCommits, if_neg h0]
          cases hg : repoGetCommits r0 since with
          | ok cs =>
              simp only [hg]
              exact List.mem_append_right _ htail
          | error msg =>
              simp only [hg]
              exact htail

/-- Witness for C3 (amended) at a fresh repository containing one in-window
commit. -/
theorem c3_inwindow_commits_included_witness :
    ((5 : ℤ) ≤ (20 : ℤ)) ∧
    (⟨"abc123", "Fix the parser", "alice/old-project", 10,
        "https://example/c"⟩ : ActCommitRec) ∈
      activityCommits 5
        [{ full_name := "alice/old-project", updated_at := 20,
           fetchOk := true,
           commitsAll :=
             [⟨"abc123", "Fix the parser", 10, "https://example/c"⟩] }] :=
  ⟨by norm_num,
   c3_inwindow_commits_included 5 _
     { full_name := "alice/old-project", updated_at := 20, fetchOk := true,
       commitsAll := [⟨"abc123", "Fix the parser", 10, "https://example/c"⟩] }
     (by norm_num) rfl
     ⟨"abc123", "Fix the parser", 10, "https://example/c"⟩
     (List.mem_singleton.mpr rfl) (by norm_num)
     (List.mem_singleton.mpr rfl)⟩

/-- Counterexample for C1: a tech-stack top-5 entry carries only `name` and
`mentions` — it has no `percentage` key at all, so "every entry is annotated
with a percentage" fails on the tech-stack categories. -/
theorem c1_tech_entry_no_percentage_cex :
    topTechCategory [("flask", 1)] =
      some [[("name", JVal.s "flask"), ("mentions", JVal.n 1)]] ∧
    jGet [("name", JVal.s "flask"), ("mentions", JVal.n 1)] "percentage" =
      none := by
  exact ⟨rfl, rfl⟩

/-- C1 (amended): for non-empty tables, the top-10 language list and each
top-5 tech-stack list are derived from a stable descending sort by count
(ties kept in insertion order) and truncated; each language entry carries
`percentage = round(count/total*100, 1)` over the whole table's total, while
each tech-stack entry carries only `name` and `mentions` — no percentage. -/
theorem c1_topn_sorted_stats (pl tbl : List (String × ℕ))
    (hpl : pl ≠ []) (htbl : tbl ≠ []) :
    topLanguages pl =
      some (((sortDescBy Prod.snd pl).map
        (langEntry ((pl.map Prod.snd).sum))).take 10) ∧
    topTechCategory tbl =
      some (((sortDescBy Prod.snd tbl).map techEntry).take 5) ∧
    (((sortDescBy Prod.snd pl).map
        (langEntry ((pl.map Prod.snd).sum))).take 10).length ≤ 10 ∧
    (((sortDescBy Prod.snd tbl).map techEntry).take 5).length ≤ 5 ∧
    (sortDescBy Prod.snd pl).Perm pl ∧
    List.Sorted (fun a b => b.2 ≤ a.2) (sortDescBy Prod.snd pl) ∧
    (∀ cnt, (sortDescBy Prod.snd pl).filter (fun p => decide (p.2 = cnt)) =
      pl.filter (fun p => decide (p.2 = cnt))) ∧
    (sortDescBy Prod.snd tbl).Perm tbl ∧
    List.Sorted (fun a b => b.2 ≤ a.2) (sortDescBy Prod.snd tbl) ∧
    (∀ cnt, (sortDescBy Prod.snd tbl).filter (fun p => decide (p.2 = cnt)) =
      tbl.filter (fun p => decide (p.2 = cnt))) ∧
    (∀ total p, jGet (langEntry total p) "percentage" =
      some (.q (pyRound1 ((p.2 : ℚ) / (total : ℚ) * 100)))) ∧
    (∀ total p, jGet (langEntry total p) "files" = some (.n p.2)) ∧
    (∀ p, jGet (techEntry p) "percentage" = none) ∧
    (∀ p, jGet (techEntry p) "mentions" = some (.n p.2)) := by
  refine ⟨?_, ?_, ?_, ?_, perm_sortDescBy _ _, sorted_sortDescBy _ _, ?_,
    perm_sortDescBy _ _, sorted_sortDescBy _ _, ?_,
    fun total p => rfl, fun total p => rfl, fun p => rfl, fun p => rfl⟩
  · simp [topLanguages, hpl]
  · simp [topTechCategory, htbl]
  · exact List.length_take_le _ _
  · exact List.length_take_le _ _
  · intro cnt
    exact filter_sortDescBy Prod.snd pl cnt
  · intro cnt
    exact filter_sortDescBy Prod.snd tbl cnt

/-- Witness for C1 (amended) at concrete non-empty tables. -/
theorem c1_topn_sorted_stats_witness :
    (([("Python", 3), ("Go", 1)] : List (String × ℕ)) ≠ []) ∧
    (([("flask", 1)] : List (String × ℕ)) ≠ []) ∧
    topLanguages [("Python", 3), ("Go", 1)] =
      some (((sortDescBy Prod.snd [("Python", 3), ("Go", 1)]).map
        (langEntry (([("Python", 3), ("Go", 1)].map Prod.snd).sum))).take
          10) :=
  ⟨by decide, by decide,
   (c1_topn_sorted_stats [("Python", 3), ("Go", 1)] [("flask", 1)]
      (by decide) (by decide)).1⟩

/-- Counterexample for C8: a tool invocation with an unknown name makes
`handle_call_tool` raise `ValueError` — the exception propagates to the
protocol layer instead of being returned as a text payload. -/
theorem c8_unknown_tool_cex :
    handleCallTool "get_user_stats" failingOutcomes =
      CallResult.raised "Unknown tool: get_user_stats" := by
  rfl

/-- C8 (amended): for each of the four registered tool names, every outcome
of the underlying client call — success or failure — is returned as a single
text content, with a failure rendered as an error string naming the tool;
only an unknown tool name (and the startup configuration failure) escapes as
an exception. -/
theorem c8_tool_errors_as_text (oc : ClientOutcomes) (name : String)
    (h : name ∈ registeredTools) :
    (∃ t, handleCallTool name oc = CallResult.contents [t]) ∧
    (∀ emsg, oc.userEvents = .error emsg →
      handleCallTool "get_user_events" oc =
        CallResult.contents ["Error getting user events: " ++ emsg]) ∧
    (∀ emsg, oc.repoEvents = .error emsg →
      handleCallTool "get_repository_events" oc =
        CallResult.contents ["Error getting repository events: " ++ emsg]) ∧
    (∀ emsg, oc.activity = .error emsg →
      handleCallTool "get_user_activity" oc =
        CallResult.contents ["Error getting user activity: " ++ emsg]) ∧
    (∀ emsg, oc.commits = .error emsg →
      handleCallTool "get_user_commits" oc =
        CallResult.contents ["Error getting user commits: " ++ emsg]) := by
  refine ⟨?_, ?_, ?_, ?_, ?_⟩
  · simp only [registeredTools, List.mem_cons, List.not_mem_nil,
      or_false] at h
    rcases h with rfl | rfl | rfl | rfl
    · exact ⟨serverGetUserEvents oc.userEvents, rfl⟩
    · exact ⟨serverGetRepositoryEvents oc.repoEvents, rfl⟩
    · exact ⟨serverGetUserActivity oc.activity, rfl⟩
    · exact ⟨serverGetUserCommits oc.commits, rfl⟩
  · intro emsg he
    calc handleCallTool "get_user_events" oc
        = CallResult.contents [serverGetUserEvents oc.userEvents] := rfl
      _ = CallResult.contents ["Error getting user events: " ++ emsg] := by
          rw [he]
          rfl
  · intro emsg he
    calc handleCallTool "get_repository_events" oc
        = CallResult.contents [serverGetRepositoryEvents oc.repoEvents] := rfl
      _ = CallResult.contents
            ["Error getting repository events: " ++ emsg] := by
          rw [he]
          rfl
  · intro emsg he
    calc handleCallTool "get_user_activity" oc
        = CallResult.contents [serverGetUserActivity oc.activity] := rfl
      _ = CallResult.contents ["Error getting user activity: " ++ emsg] := by
          rw [he]
          rfl
  · intro emsg he
    calc handleCallTool "get_user_commits" oc
        = CallResult.contents [serverGetUserCommits oc.commits] := rfl
      _ = CallResult.contents ["Error getting user commits: " ++ emsg] := by
          rw [he]
          rfl

/-- Witness for C8 (amended): the `get_user_events` tool with a failing
client still returns one text content. -/
theorem c8_tool_errors_as_text_witness :
    ("get_user_events" ∈ registeredTools) ∧
    (∃ t, handleCallTool "get_user_events" failingOutcomes =
      CallResult.contents [t]) :=
  ⟨by decide,
   (c8_tool_errors_as_text failingOutcomes "get_user_events" (by decide)).1⟩

/-- Counterexample for C9: two admissible set-iteration orders — both
duplicate-free enumerations of the same candidate strings, as two processes
with different hash seeds would produce — yield differently ordered
methodologies lists from identical profile inputs, so the synthesis is not
deterministic across runs including list order. -/
theorem c9_set_order_cex :
    methodologyUniverse.Nodup ∧ methodologyUniverse.reverse.Nodup ∧
    methodologyUniverse.Perm methodologyUniverse.reverse ∧
    inferMethodologies methodologyUniverse ["docker", "git"] 100 ≠
      inferMethodologies methodologyUniverse.reverse ["docker", "git"] 100 := by
  exact ⟨by decide, by decide, by decide, by decide⟩

/-- C9 (amended): the methodology synthesis is deterministic up to the order
imposed by the interpreter's set-iteration order: for any two duplicate-free
iteration orders related by a permutation, the two runs produce the same
multiset (hence the same set) of methodologies from identical inputs; only
the list order may differ. -/
theorem c9_methodologies_perm (o1 o2 toolsLower : List String)
    (commitCount : ℕ) (hnd : o1.Nodup) (hperm : o1.Perm o2) :
    (inferMethodologies o1 toolsLower commitCount).Perm
      (inferMethodologies o2 toolsLower commitCount) ∧
    (inferMethodologies o1 toolsLower commitCount).toFinset =
      (inferMethodologies o2 toolsLower commitCount).toFinset := by
  have hsub := buildMethodologies_subset toolsLower commitCount
  have hf1 : (pySetToList o1 (buildMethodologies toolsLower
      commitCount)).Nodup := hnd.filter _
  have hsb : pySetToList o1 (buildMethodologies toolsLower commitCount) ⊆
      methodologyUniverse := by
    intro x hx
    rw [pySetToList, List.mem_filter] at hx
    exact hsub (of_decide_eq_true hx.2)
  have hlen1 : (pySetToList o1 (buildMethodologies toolsLower
      commitCount)).length ≤ 5 := by
    have h5 : methodologyUniverse.length = 5 := rfl
    have := List.Subperm.length_le (List.subperm_of_subset hf1 hsb)
    omega
  have hfp : (pySetToList o1 (buildMethodologies toolsLower
      commitCount)).Perm (pySetToList o2 (buildMethodologies toolsLower
      commitCount)) := hperm.filter _
  have hlen2 : (pySetToList o2 (buildMethodologies toolsLower
      commitCount)).length ≤ 5 := hfp.length_eq ▸ hlen1
  have ht1 : inferMethodologies o1 toolsLower commitCount =
      pySetToList o1 (buildMethodologies toolsLower commitCount) := by
    rw [inferMethodologies, List.take_of_length_le hlen1]
  have ht2 : inferMethodologies o2 toolsLower commitCount =
      pySetToList o2 (buildMethodologies toolsLower commitCount) := by
    rw [inferMethodologies, List.take_of_length_le hlen2]
  constructor
  · rw [ht1, ht2]
    exact hfp
  · rw [ht1, ht2]
    exact List.toFinset_eq_of_perm _ _ hfp

/-- Witness for C9 (amended) at the two concrete iteration orders of the
counterexample: the outputs are permutations of one another. -/
theorem c9_methodologies_perm_witness :
    methodologyUniverse.Nodup ∧
    methodologyUniverse.Perm methodologyUniverse.reverse ∧
    (inferMethodologies methodologyUniverse ["docker", "git"] 100).Perm
      (inferMethodologies methodologyUniverse.reverse ["docker", "git"]
        100) :=
  ⟨by decide, by decide,
   (c9_methodologies_perm methodologyUniverse methodologyUniverse.reverse
      ["docker", "git"] 100 (by decide) (by decide)).1⟩
